import Mathlib

/-!
Shallow embedding of the Jensen-Shannon divergence module of torchmetrics
(`src/torchmetrics/functional/regression/js_divergence.py` and
`src/torchmetrics/regression/js_divergence.py`).

A tensor is modelled as its full shape metadata together with the contents
under the row-major two-dimensional view, as a list of rows of reals.  The
divergence kernel only reads the contents after checking that both inputs are
two-dimensional, so the two-dimensional view is the only contents view the
embedding needs.  Machine floating point is abstracted to `ℝ`.
-/

/-- A tensor: shape metadata plus the contents under the two-dimensional
row-major view (a list of rows).  The kernel errors out before touching the
contents whenever the input is not two-dimensional. -/
structure Tensor where
  shape : List ℕ
  rows : List (List ℝ)

/-- Number of dimensions, `t.ndim` in the source. -/
def Tensor.ndim (t : Tensor) : ℕ := t.shape.length

/-- Well-formedness of the two-dimensional view: the shape is `[N, d]` where
`N` is the number of rows and every row has length `d`. -/
def Tensor.WF2 (t : Tensor) (d : ℕ) : Prop :=
  t.shape = [t.rows.length, d] ∧ ∀ r ∈ t.rows, r.length = d

/-- Errors raised on the way into the divergence kernel: the shape-equality
error of `_check_same_shape` and the rank error of `_jsd_update`. -/
inductive JsdError where
  | shapeMismatch (sp sq : List ℕ)
  | invalidRank (np nq : ℕ)
deriving DecidableEq

/-- The message of the error: for `invalidRank` this mirrors the f-string of
the `ValueError` raised in `_jsd_update`. -/
def JsdError.message : JsdError → String
  | .shapeMismatch _ _ => "Predictions and targets are expected to have the same shape"
  | .invalidRank np nq =>
      "Expected both p and q distributions to be 2D but got " ++ toString np ++ " and "
        ++ toString nq ++ " respectively"

/-- Modelled from the spec: the shape-check collaborator `_check_same_shape`
(`torchmetrics.utilities.checks`, not among the sources at hand) signals a
descriptive error when the two shapes differ and does nothing otherwise. -/
def check_same_shape (p q : Tensor) : Except JsdError Unit :=
  if p.shape = q.shape then .ok () else .error (.shapeMismatch p.shape q.shape)

/-- Modelled from the spec: the safe x·log y collaborator `_safe_xlogy`
(`torchmetrics.utilities.compute`, not among the sources at hand) returns `0`
at positions where `x = 0` — regardless of `y` — and `x * log y` otherwise. -/
noncomputable def safe_xlogy (x y : ℝ) : ℝ := if x = 0 then 0 else x * Real.log y

/-- Per-row measure of the `log_prob = True` branch of `_jsd_update`:
`p_prob = p.exp()`, `q_prob = q.exp()`, `m = log(0.5 * (p_prob + q_prob))`,
`measure1 = (p_prob * (p - m)).sum(-1)`, `measure2 = (q_prob * (q - m)).sum(-1)`,
and the row measure is `0.5 * (measure1 + measure2)`. -/
noncomputable def logMeasure (pr qr : List ℝ) : ℝ :=
  let m := List.zipWith (fun a b => Real.log (0.5 * (Real.exp a + Real.exp b))) pr qr
  let measure1 := (List.zipWith (fun a c => Real.exp a * (a - c)) pr m).sum
  let measure2 := (List.zipWith (fun b c => Real.exp b * (b - c)) qr m).sum
  0.5 * (measure1 + measure2)

/-- Per-row measure of the `log_prob = False` branch of `_jsd_update`: each row
is divided by its own sum, `m = 0.5 * (p + q)`, and the row measure is
`0.5 * (_safe_xlogy(p, p/m).sum(-1) + _safe_xlogy(q, q/m).sum(-1))`. -/
noncomputable def probMeasure (pr qr : List ℝ) : ℝ :=
  let pn := pr.map (fun x => x / pr.sum)
  let qn := qr.map (fun x => x / qr.sum)
  let m := List.zipWith (fun a b => 0.5 * (a + b)) pn qn
  let measure1 := (List.zipWith (fun a c => safe_xlogy a (a / c)) pn m).sum
  let measure2 := (List.zipWith (fun b c => safe_xlogy b (b / c)) qn m).sum
  0.5 * (measure1 + measure2)

/-- `_jsd_update`: check shape equality, check that both inputs are
2-dimensional, then return the per-row measures and `total = p.shape[0]`. -/
noncomputable def _jsd_update (p q : Tensor) (log_prob : Bool) : Except JsdError (List ℝ × ℕ) :=
  match check_same_shape p q with
  | .error e => .error e
  | .ok _ =>
    if p.ndim ≠ 2 ∨ q.ndim ≠ 2 then
      .error (.invalidRank p.ndim q.ndim)
    else
      let total := p.shape.headD 0
      let measures :=
        if log_prob then List.zipWith logMeasure p.rows q.rows
        else List.zipWith probMeasure p.rows q.rows
      .ok (measures, total)

/-- A result tensor: a 0-dimensional scalar or a 1-dimensional vector. -/
inductive RTensor where
  | scalar (x : ℝ)
  | vec (xs : List ℝ)

/-- `t.sum()`: the sum of all entries (a scalar sums to itself). -/
noncomputable def RTensor.sum : RTensor → ℝ
  | .scalar x => x
  | .vec xs => xs.sum

/-- `t / c`: elementwise division by a scalar. -/
noncomputable def RTensor.div (t : RTensor) (c : ℝ) : RTensor :=
  match t with
  | .scalar x => .scalar (x / c)
  | .vec xs => .vec (xs.map (fun x => x / c))

/-- `_jsd_compute`: reduce the measures according to `reduction`, an optional
string (`None` is modelled as `Option.none`). -/
noncomputable def _jsd_compute (measures : RTensor) (total : ℝ) (reduction : Option String) : RTensor :=
  if reduction = some "sum" then .scalar measures.sum
  else if reduction = some "mean" then .scalar (measures.sum / total)
  else if reduction = Option.none ∨ reduction = some "none" then measures
  else measures.div total

/-- `js_divergence`: single-shot composition of `_jsd_update` and
`_jsd_compute`. -/
noncomputable def js_divergence (p q : Tensor) (log_prob : Bool) (reduction : Option String) :
    Except JsdError RTensor :=
  match _jsd_update p q log_prob with
  | .error e => .error e
  | .ok (measures, total) => .ok (_jsd_compute (.vec measures) (total : ℝ) reduction)

/-- Modelled from the spec: `dim_zero_cat` (`torchmetrics.utilities.data`, not
among the sources at hand) concatenates a list of per-sample vectors in
order. -/
def dim_zero_cat (xs : List (List ℝ)) : List ℝ := xs.flatten

/-- State of the `JSDivergence` metric object.  The Python object stores a
single `measures` attribute whose kind is fixed by `reduction` at
construction: a scalar running sum for `"mean"`/`"sum"`, a growing list of
per-sample vectors for `"none"`/`None`.  Both representations are carried
here; `update` and `compute` touch only the one selected by `reduction`. -/
structure JSDivergence where
  log_prob : Bool
  reduction : Option String
  measuresAgg : ℝ
  measuresSeq : List (List ℝ)
  total : ℕ

/-- `JSDivergence.__init__`: validate `reduction` against the four allowed
values and initialize the state (scalar sum 0, empty sequence, count 0).
The Python type check on `log_prob` is enforced by this embedding's types. -/
def JSDivergence.init (log_prob : Bool) (reduction : Option String) :
    Except String JSDivergence :=
  if reduction = some "mean" ∨ reduction = some "sum" ∨ reduction = some "none" ∨
      reduction = Option.none then
    .ok { log_prob := log_prob, reduction := reduction, measuresAgg := 0,
          measuresSeq := [], total := 0 }
  else
    .error "Expected argument reduction to be one of mean, sum, none, None"

/-- `JSDivergence.update`: invoke `_jsd_update` with the stored `log_prob`;
in `"none"`/`None` mode append the per-sample vector, otherwise add the sum of
the vector to the running sum and the count to the running total. -/
noncomputable def JSDivergence.update (s : JSDivergence) (p q : Tensor) :
    Except JsdError JSDivergence :=
  match _jsd_update p q s.log_prob with
  | .error e => .error e
  | .ok (measures, total) =>
    if s.reduction = Option.none ∨ s.reduction = some "none" then
      .ok { s with measuresSeq := s.measuresSeq ++ [measures] }
    else
      .ok { s with measuresAgg := s.measuresAgg + measures.sum,
                   total := s.total + total }

/-- `JSDivergence.compute`: concatenate the stored vectors in `"none"`/`None`
mode, otherwise take the running scalar sum, and pass the result with the
running total to `_jsd_compute`. -/
noncomputable def JSDivergence.compute (s : JSDivergence) : RTensor :=
  let measures : RTensor :=
    if s.reduction = some "none" ∨ s.reduction = Option.none then
      .vec (dim_zero_cat s.measuresSeq)
    else .scalar s.measuresAgg
  _jsd_compute measures (s.total : ℝ) s.reduction

/-- C3: `_jsd_compute` implements exactly four behaviors on a measures vector:
`"sum"` returns the sum of all entries, `"mean"` returns the sum of all
entries divided by `total`, `"none"` and `None` return the measures unchanged,
and any other reduction string returns the elementwise division of the
measures by `total`. -/
theorem jsd_compute_four_behaviors (xs : List ℝ) (total : ℝ) :
    _jsd_compute (.vec xs) total (some "sum") = .scalar xs.sum ∧
    _jsd_compute (.vec xs) total (some "mean") = .scalar (xs.sum / total) ∧
    _jsd_compute (.vec xs) total (some "none") = .vec xs ∧
    _jsd_compute (.vec xs) total Option.none = .vec xs ∧
    ∀ r : String, r ≠ "sum" → r ≠ "mean" → r ≠ "none" →
      _jsd_compute (.vec xs) total (some r) = .vec (xs.map (fun x => x / total)) := by
  refine ⟨by simp [_jsd_compute, RTensor.sum], by simp [_jsd_compute, RTensor.sum],
    by simp [_jsd_compute], by simp [_jsd_compute], ?_⟩
  intro r h1 h2 h3
  simp [_jsd_compute, RTensor.div, h1, h2, h3]

/-- Witness for C3 at a concrete measures vector, total and fallback string. -/
theorem jsd_compute_four_behaviors_witness :
    _jsd_compute (.vec [(1 : ℝ), 2]) 2 (some "sum") = .scalar ([(1 : ℝ), 2]).sum ∧
    _jsd_compute (.vec [(1 : ℝ), 2]) 2 (some "mean") = .scalar (([(1 : ℝ), 2]).sum / 2) ∧
    _jsd_compute (.vec [(1 : ℝ), 2]) 2 (some "none") = .vec [(1 : ℝ), 2] ∧
    _jsd_compute (.vec [(1 : ℝ), 2]) 2 Option.none = .vec [(1 : ℝ), 2] ∧
    _jsd_compute (.vec [(1 : ℝ), 2]) 2 (some "batchmean") =
      .vec (([(1 : ℝ), 2]).map (fun x => x / 2)) := by
  obtain ⟨h1, h2, h3, h4, h5⟩ := jsd_compute_four_behaviors [(1 : ℝ), 2] 2
  exact ⟨h1, h2, h3, h4, h5 "batchmean" (by decide) (by decide) (by decide)⟩

/-- C4: `_jsd_update` reports a shape mismatch whenever the shapes differ
(regardless of ranks, since the shape check runs first), and an invalid-rank
error carrying both ranks whenever the shapes agree but either input is not
2-dimensional; for two 3-dimensional inputs the error message mentions "2D"
and reports the ranks "3 and 3". -/
theorem jsd_update_error_cases (p q : Tensor) (log_prob : Bool) :
    (p.shape ≠ q.shape →
      _jsd_update p q log_prob = .error (.shapeMismatch p.shape q.shape)) ∧
    (p.shape = q.shape → (p.ndim ≠ 2 ∨ q.ndim ≠ 2) →
      _jsd_update p q log_prob = .error (.invalidRank p.ndim q.ndim)) ∧
    (p.ndim = 3 → q.ndim = 3 →
      (JsdError.invalidRank p.ndim q.ndim).message =
        "Expected both p and q distributions to be 2D but got 3 and 3 respectively") := by
  refine ⟨fun hne => ?_, fun hsh hrk => ?_, fun hp3 hq3 => ?_⟩
  · simp [_jsd_update, check_same_shape, hne]
  · simp [_jsd_update, check_same_shape, hsh, hrk]
  · rw [hp3, hq3]
    rfl

/-- Witness for C4: a concrete shape-mismatch pair (shapes `(100,)` versus
`(50,)`) and a concrete equal-shape rank-error pair (two `(10, 20, 5)`
inputs), with the exact message of the latter. -/
theorem jsd_update_error_cases_witness :
    _jsd_update ⟨[100], []⟩ ⟨[50], []⟩ false = .error (.shapeMismatch [100] [50]) ∧
    _jsd_update ⟨[10, 20, 5], []⟩ ⟨[10, 20, 5], []⟩ false = .error (.invalidRank 3 3) ∧
    (JsdError.invalidRank 3 3).message =
      "Expected both p and q distributions to be 2D but got 3 and 3 respectively" := by
  refine ⟨(jsd_update_error_cases ⟨[100], []⟩ ⟨[50], []⟩ false).1 (by decide),
    (jsd_update_error_cases ⟨[10, 20, 5], []⟩ ⟨[10, 20, 5], []⟩ false).2.1 rfl
      (Or.inl (by decide)),
    (jsd_update_error_cases ⟨[10, 20, 5], []⟩ ⟨[10, 20, 5], []⟩ false).2.2 rfl rfl⟩

/-- C6: for every input batch accepted by the kernel and every setting, the
single-shot `js_divergence` returns the same result as constructing a
`JSDivergence` accumulator, performing exactly one update, and computing. -/
theorem js_divergence_eq_one_update_compute (p q : Tensor) (log_prob : Bool)
    (reduction : Option String) (s0 s1 : JSDivergence)
    (h0 : JSDivergence.init log_prob reduction = .ok s0)
    (h1 : s0.update p q = .ok s1) :
    js_divergence p q log_prob reduction = .ok s1.compute := by
  unfold JSDivergence.init at h0
  split at h0
  case isFalse h => exact absurd h0 (by simp)
  case isTrue hred =>
  injection h0 with h0
  subst h0
  unfold JSDivergence.update at h1
  cases hu : _jsd_update p q log_prob with
  | error e => rw [hu] at h1; exact absurd h1 (by simp)
  | ok v =>
    obtain ⟨m, n⟩ := v
    rw [hu] at h1
    rcases hred with hr | hr | hr | hr <;> subst hr <;>
      simp only [reduceIte] at h1 <;> simp at h1 <;> subst h1 <;>
      simp [js_divergence, hu, JSDivergence.compute, _jsd_compute, dim_zero_cat, RTensor.sum]

/-- Witness for C6 at a concrete one-sample batch with mean reduction. -/
theorem js_divergence_eq_one_update_compute_witness :
    js_divergence ⟨[1, 1], [[1]]⟩ ⟨[1, 1], [[1]]⟩ false (some "mean") =
      .ok (JSDivergence.compute ⟨false, some "mean", probMeasure [1] [1], [], 1⟩) :=
  js_divergence_eq_one_update_compute ⟨[1, 1], [[1]]⟩ ⟨[1, 1], [[1]]⟩ false (some "mean")
    ⟨false, some "mean", 0, [], 0⟩ ⟨false, some "mean", probMeasure [1] [1], [], 1⟩
    (by simp [JSDivergence.init])
    (by simp [JSDivergence.update, _jsd_update, check_same_shape, Tensor.ndim])

/-- C5: a `JSDivergence` accumulator with mean reduction, after two updates
with batches of sizes `n1` and `n2` whose per-sample measure sums are
`m1.sum` and `m2.sum`, computes the count-weighted mean
`(m1.sum + m2.sum) / (n1 + n2)`. -/
theorem jsd_mean_is_count_weighted (log_prob : Bool) (p1 q1 p2 q2 : Tensor)
    (m1 m2 : List ℝ) (n1 n2 : ℕ) (s0 s1 s2 : JSDivergence)
    (h0 : JSDivergence.init log_prob (some "mean") = .ok s0)
    (hu1 : _jsd_update p1 q1 log_prob = .ok (m1, n1))
    (hu2 : _jsd_update p2 q2 log_prob = .ok (m2, n2))
    (h1 : s0.update p1 q1 = .ok s1)
    (h2 : s1.update p2 q2 = .ok s2) :
    s2.compute = .scalar ((m1.sum + m2.sum) / ((n1 : ℝ) + (n2 : ℝ))) := by
  simp only [JSDivergence.init, reduceIte] at h0
  injection h0 with h0
  subst h0
  unfold JSDivergence.update at h1
  rw [hu1] at h1
  simp only [reduceIte] at h1
  simp at h1
  subst h1
  unfold JSDivergence.update at h2
  rw [hu2] at h2
  simp only [reduceIte] at h2
  simp at h2
  subst h2
  simp [JSDivergence.compute, _jsd_compute, RTensor.sum]

/-- Witness for C5 at two concrete one-sample batches. -/
theorem jsd_mean_is_count_weighted_witness :
    JSDivergence.compute
        ⟨false, some "mean", probMeasure [1] [1] + probMeasure [1] [1], [], 2⟩ =
      .scalar ((([probMeasure [1] [1]]).sum + ([probMeasure [1] [1]]).sum) /
        (((1 : ℕ) : ℝ) + ((1 : ℕ) : ℝ))) :=
  jsd_mean_is_count_weighted false ⟨[1, 1], [[1]]⟩ ⟨[1, 1], [[1]]⟩
    ⟨[1, 1], [[1]]⟩ ⟨[1, 1], [[1]]⟩
    [probMeasure [1] [1]] [probMeasure [1] [1]] 1 1
    ⟨false, some "mean", 0, [], 0⟩ ⟨false, some "mean", probMeasure [1] [1], [], 1⟩
    ⟨false, some "mean", probMeasure [1] [1] + probMeasure [1] [1], [], 2⟩
    (by simp [JSDivergence.init])
    (by simp [_jsd_update, check_same_shape, Tensor.ndim])
    (by simp [_jsd_update, check_same_shape, Tensor.ndim])
    (by simp [JSDivergence.update, _jsd_update, check_same_shape, Tensor.ndim])
    (by simp [JSDivergence.update, _jsd_update, check_same_shape, Tensor.ndim])

/-- Helper: the elementwise mixture of the log path is symmetric in its two
rows, so the mixture list is unchanged when the rows are swapped. -/
theorem logMeasure_comm (pr qr : List ℝ) : logMeasure pr qr = logMeasure qr pr := by
  simp only [logMeasure]
  rw [List.zipWith_comm_of_comm (fun a b => Real.log (0.5 * (Real.exp a + Real.exp b)))
    (fun x y => by simp [add_comm]) qr pr]
  ring

/-- Helper: the non-log row measure is symmetric in its two rows. -/
theorem probMeasure_comm (pr qr : List ℝ) : probMeasure pr qr = probMeasure qr pr := by
  simp only [probMeasure]
  rw [List.zipWith_comm_of_comm (fun a b => (0.5 : ℝ) * (a + b))
    (fun x y => by simp [add_comm]) (qr.map fun x => x / qr.sum) (pr.map fun x => x / pr.sum)]
  ring

/-- C7: for equal-shape inputs, `js_divergence` with reduction `"none"` is
symmetric in its two arguments, on both the log-probability and the
probability paths. -/
theorem js_divergence_symmetric (p q : Tensor) (lp : Bool) (h : p.shape = q.shape) :
    js_divergence p q lp (some "none") = js_divergence q p lp (some "none") := by
  have hnd : p.ndim = q.ndim := by unfold Tensor.ndim; rw [h]
  simp only [js_divergence, _jsd_update, check_same_shape, h, hnd, if_pos rfl]
  rw [List.zipWith_comm_of_comm logMeasure logMeasure_comm q.rows p.rows,
    List.zipWith_comm_of_comm probMeasure probMeasure_comm q.rows p.rows]

/-- Witness for C7 at a concrete equal-shape pair of one-row tensors. -/
theorem js_divergence_symmetric_witness :
    js_divergence ⟨[1, 2], [[0.3, 0.7]]⟩ ⟨[1, 2], [[0.6, 0.4]]⟩ false (some "none") =
      js_divergence ⟨[1, 2], [[0.6, 0.4]]⟩ ⟨[1, 2], [[0.3, 0.7]]⟩ false (some "none") :=
  js_divergence_symmetric ⟨[1, 2], [[0.3, 0.7]]⟩ ⟨[1, 2], [[0.6, 0.4]]⟩ false rfl

/-- Helper: mapping multiplication by a constant over a list multiplies the
sum by that constant. -/
theorem sum_map_mul (c : ℝ) (l : List ℝ) : (l.map (fun x => c * x)).sum = c * l.sum := by
  induction l with
  | nil => simp
  | cons a t ih => simp [ih, mul_add]

/-- Helper: the non-log row measure only uses the first row through its
normalization, so rescaling the first row by a nonzero constant is invisible. -/
theorem probMeasure_scale_left (c : ℝ) (hc : c ≠ 0) (pr qr : List ℝ) :
    probMeasure (pr.map (fun x => c * x)) qr = probMeasure pr qr := by
  simp only [probMeasure]
  have hpn : (pr.map (fun x => c * x)).map (fun x => x / (pr.map (fun x => c * x)).sum)
      = pr.map (fun x => x / pr.sum) := by
    rw [sum_map_mul, List.map_map]
    have : ((fun x => x / (c * pr.sum)) ∘ fun x => c * x) = fun x => x / pr.sum := by
      funext x
      simp only [Function.comp]
      exact mul_div_mul_left x pr.sum hc
    rw [this]
  rw [hpn]

/-- Helper: rescaling the second row by a nonzero constant is invisible. -/
theorem probMeasure_scale_right (c : ℝ) (hc : c ≠ 0) (pr qr : List ℝ) :
    probMeasure pr (qr.map (fun x => c * x)) = probMeasure pr qr := by
  rw [probMeasure_comm, probMeasure_scale_left c hc, probMeasure_comm]

/-- Helper: replacing one list element by an image that the elementwise
function cannot distinguish leaves a `zipWith` unchanged (left list). -/
theorem zipWith_eq_of_set {α β γ : Type} (f : α → β → γ) (g : α → α)
    (hg : ∀ x y, f (g x) y = f x y) :
    ∀ (a : List α) (b : List β) (i : ℕ) (hia : i < a.length),
      List.zipWith f (a.set i (g (a.get ⟨i, hia⟩))) b = List.zipWith f a b
  | [], _, i, hia => by simp at hia
  | x :: ta, [], i, hia => by simp
  | x :: ta, y :: tb, 0, hia => by simp [hg]
  | x :: ta, y :: tb, i + 1, hia => by
      simp only [List.set, List.zipWith, List.get]
      rw [zipWith_eq_of_set f g hg ta tb i (by simpa using hia)]

/-- Helper: same as `zipWith_eq_of_set`, for the right list. -/
theorem zipWith_eq_of_set_right {α β γ : Type} (f : α → β → γ) (g : β → β)
    (hg : ∀ x y, f x (g y) = f x y) :
    ∀ (a : List α) (b : List β) (i : ℕ) (hib : i < b.length),
      List.zipWith f a (b.set i (g (b.get ⟨i, hib⟩))) = List.zipWith f a b
  | [], _, i, hib => by simp
  | x :: ta, [], i, hib => by simp at hib
  | x :: ta, y :: tb, 0, hib => by simp [hg]
  | x :: ta, y :: tb, i + 1, hib => by
      simp only [List.set, List.zipWith, List.get]
      rw [zipWith_eq_of_set_right f g hg ta tb i (by simpa using hib)]

/-- C10: in the non-log path, multiplying any single row of `p` (or of `q`)
by a positive constant leaves the result of `_jsd_update` unchanged, because
each row is divided by its own sum before any divergence arithmetic. -/
theorem jsd_update_row_scale_invariant (p q : Tensor) (i : ℕ) (c : ℝ) (hc : 0 < c)
    (hip : i < p.rows.length) (hiq : i < q.rows.length) :
    _jsd_update ⟨p.shape, p.rows.set i ((p.rows.get ⟨i, hip⟩).map (fun x => c * x))⟩ q false
      = _jsd_update p q false ∧
    _jsd_update p ⟨q.shape, q.rows.set i ((q.rows.get ⟨i, hiq⟩).map (fun x => c * x))⟩ false
      = _jsd_update p q false := by
  constructor
  · simp only [_jsd_update, check_same_shape, Tensor.ndim, Bool.false_eq_true, if_false]
    rw [zipWith_eq_of_set probMeasure (fun r => r.map (fun x => c * x))
      (fun r s => probMeasure_scale_left c (ne_of_gt hc) r s) p.rows q.rows i hip]
  · simp only [_jsd_update, check_same_shape, Tensor.ndim, Bool.false_eq_true, if_false]
    rw [zipWith_eq_of_set_right probMeasure (fun r => r.map (fun x => c * x))
      (fun r s => probMeasure_scale_right c (ne_of_gt hc) r s) p.rows q.rows i hiq]

/-- Witness for C10: scaling the single row of a concrete one-row input by 2
leaves the update result unchanged. -/
theorem jsd_update_row_scale_invariant_witness :
    _jsd_update ⟨[1, 2], (([[1, 3]] : List (List ℝ)).set 0
        (((([[1, 3]] : List (List ℝ)).get ⟨0, by simp⟩)).map (fun x => 2 * x)))⟩
      ⟨[1, 2], [[2, 2]]⟩ false = _jsd_update ⟨[1, 2], [[1, 3]]⟩ ⟨[1, 2], [[2, 2]]⟩ false ∧
    _jsd_update ⟨[1, 2], [[1, 3]]⟩ ⟨[1, 2], (([[2, 2]] : List (List ℝ)).set 0
        (((([[2, 2]] : List (List ℝ)).get ⟨0, by simp⟩)).map (fun x => 2 * x)))⟩ false
      = _jsd_update ⟨[1, 2], [[1, 3]]⟩ ⟨[1, 2], [[2, 2]]⟩ false :=
  jsd_update_row_scale_invariant ⟨[1, 2], [[1, 3]]⟩ ⟨[1, 2], [[2, 2]]⟩ 0 2 (by norm_num)
    (by simp) (by simp)

/-- Helper: the log-path row measure as a single elementwise combination of
the two rows (the mixture of the source fused into each summand). -/
theorem logMeasure_eq (pr qr : List ℝ) :
    logMeasure pr qr =
      0.5 * ((List.zipWith (fun a b =>
          Real.exp a * (a - Real.log (0.5 * (Real.exp a + Real.exp b)))) pr qr).sum +
        (List.zipWith (fun a b =>
          Real.exp b * (b - Real.log (0.5 * (Real.exp a + Real.exp b)))) pr qr).sum) := by
  unfold logMeasure
  simp only [List.zipWith_zipWith_right, List.zipWith3_same_left, List.zipWith3_same_mid]
  rw [List.zipWith_comm (fun b a => Real.exp b * (b - Real.log (0.5 * (Real.exp a + Real.exp b)))) qr pr]

/-- Helper: the non-log row measure as a single elementwise combination of
the two rows (normalization and mixture of the source fused in). -/
theorem probMeasure_eq (pr qr : List ℝ) :
    probMeasure pr qr =
      0.5 * ((List.zipWith (fun x y => safe_xlogy (x / pr.sum)
          ((x / pr.sum) / (0.5 * (x / pr.sum + y / qr.sum)))) pr qr).sum +
        (List.zipWith (fun x y => safe_xlogy (y / qr.sum)
          ((y / qr.sum) / (0.5 * (x / pr.sum + y / qr.sum)))) pr qr).sum) := by
  unfold probMeasure
  simp only [List.zipWith_zipWith_right]
  simp only [List.zipWith3_same_left, List.zipWith3_same_mid]
  simp only [List.zipWith_map]
  rw [List.zipWith_comm (fun y x => safe_xlogy (y / qr.sum)
    ((y / qr.sum) / (0.5 * (x / pr.sum + y / qr.sum)))) qr pr]

/-- Helper: a sum over an elementwise combination of two lists of a common
length is the corresponding sum over the index type of that length. -/
theorem sum_zipWith_eq_fin_sum (f : ℝ → ℝ → ℝ) :
    ∀ (d : ℕ) (a b : List ℝ), a.length = d → b.length = d →
      (List.zipWith f a b).sum = ∑ j : Fin d, f (a.getD j 0) (b.getD j 0) := by
  intro d
  induction d with
  | zero =>
    intro a b ha hb
    rw [List.length_eq_zero] at ha hb
    subst ha; subst hb; simp
  | succ n ih =>
    intro a b ha hb
    cases a with
    | nil => simp at ha
    | cons x ta =>
      cases b with
      | nil => simp at hb
      | cons y tb =>
        simp only [List.zipWith, List.sum_cons]
        rw [Fin.sum_univ_succ]
        simp only [Fin.val_zero, List.getD_cons_zero, Fin.val_succ, List.getD_cons_succ]
        rw [ih ta tb (by simpa using ha) (by simpa using hb)]

/-- Helper: a list sum as a sum over the index type of its length. -/
theorem sum_eq_fin_sum :
    ∀ (d : ℕ) (a : List ℝ), a.length = d → a.sum = ∑ j : Fin d, a.getD j 0 := by
  intro d
  induction d with
  | zero =>
    intro a ha
    rw [List.length_eq_zero] at ha
    subst ha; simp
  | succ n ih =>
    intro a ha
    cases a with
    | nil => simp at ha
    | cons x ta =>
      simp only [List.sum_cons]
      rw [Fin.sum_univ_succ]
      simp only [Fin.val_zero, List.getD_cons_zero, Fin.val_succ, List.getD_cons_succ]
      rw [ih ta (by simpa using ha)]

/-- The spec's per-sample formula for the log-probability path, stated over
indexed families on the distribution dimension: with `P = exp p`, `Q = exp q`
and `M = log(0.5*(P+Q))` elementwise, the measure is
`0.5 * (sum P*(p-M) + sum Q*(q-M))`. -/
noncomputable def specMeasureLog (d : ℕ) (p q : Fin d → ℝ) : ℝ :=
  let P := fun j => Real.exp (p j)
  let Q := fun j => Real.exp (q j)
  let M := fun j => Real.log (0.5 * (P j + Q j))
  0.5 * ((∑ j, P j * (p j - M j)) + (∑ j, Q j * (q j - M j)))

/-- The spec's per-sample formula for the probability path, stated over
indexed families on the distribution dimension: rows are renormalized by
their sums, `M = 0.5*(p+q)`, and the measure is
`0.5 * (sum safe_xlogy(p, p/M) + sum safe_xlogy(q, q/M))`. -/
noncomputable def specMeasureProb (d : ℕ) (p q : Fin d → ℝ) : ℝ :=
  let pn := fun j => p j / (∑ k, p k)
  let qn := fun j => q j / (∑ k, q k)
  let M := fun j => 0.5 * (pn j + qn j)
  0.5 * ((∑ j, safe_xlogy (pn j) (pn j / M j)) + (∑ j, safe_xlogy (qn j) (qn j / M j)))

/-- Helper: the source's log-path row measure equals the spec's formula. -/
theorem logMeasure_eq_spec (d : ℕ) (pr qr : List ℝ) (hp : pr.length = d) (hq : qr.length = d) :
    logMeasure pr qr = specMeasureLog d (fun j => pr.getD j 0) (fun j => qr.getD j 0) := by
  rw [logMeasure_eq]
  simp only [specMeasureLog]
  rw [sum_zipWith_eq_fin_sum _ d pr qr hp hq, sum_zipWith_eq_fin_sum _ d pr qr hp hq]

/-- Helper: the source's non-log row measure equals the spec's formula. -/
theorem probMeasure_eq_spec (d : ℕ) (pr qr : List ℝ) (hp : pr.length = d) (hq : qr.length = d) :
    probMeasure pr qr = specMeasureProb d (fun j => pr.getD j 0) (fun j => qr.getD j 0) := by
  rw [probMeasure_eq]
  simp only [specMeasureProb]
  rw [sum_zipWith_eq_fin_sum _ d pr qr hp hq, sum_zipWith_eq_fin_sum _ d pr qr hp hq,
    sum_eq_fin_sum d pr hp, sum_eq_fin_sum d qr hq]

/-- C1: on equal-height well-formed 2-D inputs, `_jsd_update` succeeds and
returns exactly the pair of the length-`N` vector whose `i`-th entry is the
spec's per-sample measure of row `i` (log path or non-log path according to
`log_prob`) and the row count `N` of `p`. -/
theorem jsd_update_matches_spec (p q : Tensor) (d : ℕ) (log_prob : Bool)
    (hp : p.WF2 d) (hq : q.WF2 d) (hN : p.rows.length = q.rows.length) :
    _jsd_update p q log_prob =
      .ok (List.ofFn (fun i : Fin p.rows.length =>
        if log_prob then
          specMeasureLog d (fun j => (p.rows.getD i []).getD j 0)
            (fun j => (q.rows.getD i []).getD j 0)
        else
          specMeasureProb d (fun j => (p.rows.getD i []).getD j 0)
            (fun j => (q.rows.getD i []).getD j 0)),
        p.rows.length) := by
  obtain ⟨hps, hpr⟩ := hp
  obtain ⟨hqs, hqr⟩ := hq
  have hsh : p.shape = q.shape := by rw [hps, hqs, hN]
  have hnd : p.ndim = 2 := by unfold Tensor.ndim; rw [hps]; rfl
  have hnd' : q.ndim = 2 := by unfold Tensor.ndim; rw [hqs]; rfl
  unfold _jsd_update check_same_shape
  rw [if_pos hsh]
  simp only [hnd, hnd', ne_eq, not_true_eq_false, or_self, if_false]
  have htot : p.shape.headD 0 = p.rows.length := by rw [hps]; rfl
  rw [htot]
  cases log_prob with
  | true =>
    simp only [if_true, Except.ok.injEq, Prod.mk.injEq, and_true]
    apply List.ext_getElem
    · simp [List.length_zipWith, hN]
    · intro i h1 h2
      rw [List.getElem_zipWith, List.getElem_ofFn]
      have hip : i < p.rows.length := by simpa [List.length_zipWith, hN] using h1
      have hiq : i < q.rows.length := by rw [← hN]; exact hip
      rw [logMeasure_eq_spec d (p.rows[i]) (q.rows[i])
        (hpr _ (List.getElem_mem hip)) (hqr _ (List.getElem_mem hiq))]
      rw [List.getD_eq_getElem p.rows [] hip, List.getD_eq_getElem q.rows [] hiq]
  | false =>
    simp only [Bool.false_eq_true, if_false, Except.ok.injEq, Prod.mk.injEq, and_true]
    apply List.ext_getElem
    · simp [List.length_zipWith, hN]
    · intro i h1 h2
      rw [List.getElem_zipWith, List.getElem_ofFn]
      have hip : i < p.rows.length := by simpa [List.length_zipWith, hN] using h1
      have hiq : i < q.rows.length := by rw [← hN]; exact hip
      rw [probMeasure_eq_spec d (p.rows[i]) (q.rows[i])
        (hpr _ (List.getElem_mem hip)) (hqr _ (List.getElem_mem hiq))]
      rw [List.getD_eq_getElem p.rows [] hip, List.getD_eq_getElem q.rows [] hiq]

/-- Witness for C1 at a concrete pair of one-row probability tensors. -/
theorem jsd_update_matches_spec_witness :
    _jsd_update ⟨[1, 2], [[0.3, 0.7]]⟩ ⟨[1, 2], [[0.6, 0.4]]⟩ false =
      .ok (List.ofFn (fun i : Fin (([[(0.3 : ℝ), 0.7]] : List (List ℝ)).length) =>
        if false then
          specMeasureLog 2 (fun j => (([[(0.3 : ℝ), 0.7]] : List (List ℝ)).getD i []).getD j 0)
            (fun j => (([[(0.6 : ℝ), 0.4]] : List (List ℝ)).getD i []).getD j 0)
        else
          specMeasureProb 2 (fun j => (([[(0.3 : ℝ), 0.7]] : List (List ℝ)).getD i []).getD j 0)
            (fun j => (([[(0.6 : ℝ), 0.4]] : List (List ℝ)).getD i []).getD j 0)),
        ([[(0.3 : ℝ), 0.7]] : List (List ℝ)).length) :=
  jsd_update_matches_spec ⟨[1, 2], [[0.3, 0.7]]⟩ ⟨[1, 2], [[0.6, 0.4]]⟩ 2 false
    ⟨by simp, by simp⟩ ⟨by simp, by simp⟩ rfl

/-- Helper: termwise lower bound of the non-log summand, from
`log t >= 1 - 1/t`; the `x = 0` position is guarded by `safe_xlogy`. -/
theorem jsd_term_lower (x y : ℝ) (hx : 0 ≤ x) (hy : 0 ≤ y) :
    0.5 * x + -0.5 * y ≤ safe_xlogy x (x / (0.5 * (x + y))) := by
  unfold safe_xlogy
  by_cases hx0 : x = 0
  · rw [if_pos hx0]
    subst hx0
    linarith
  · rw [if_neg hx0]
    have hxp : 0 < x := lt_of_le_of_ne hx (Ne.symm hx0)
    have hm : 0 < 0.5 * (x + y) := by linarith
    have hr : 0 < x / (0.5 * (x + y)) := div_pos hxp hm
    have hlog := Real.one_sub_inv_le_log_of_pos hr
    have hinv : (x / (0.5 * (x + y)))⁻¹ = 0.5 * (x + y) / x := by
      rw [inv_div]
    rw [hinv] at hlog
    have := mul_le_mul_of_nonneg_left hlog (le_of_lt hxp)
    calc 0.5 * x + -0.5 * y = x * (1 - 0.5 * (x + y) / x) := by
          field_simp
          ring
      _ ≤ x * Real.log (x / (0.5 * (x + y))) := this

/-- Helper: termwise upper bound of the non-log summand: the mixture is at
least half of `x`, so the log factor is at most `log 2`. -/
theorem jsd_term_upper (x y : ℝ) (hx : 0 ≤ x) (hy : 0 ≤ y) :
    safe_xlogy x (x / (0.5 * (x + y))) ≤ Real.log 2 * x + 0 * y := by
  unfold safe_xlogy
  by_cases hx0 : x = 0
  · rw [if_pos hx0]
    subst hx0
    simp
  · rw [if_neg hx0]
    have hxp : 0 < x := lt_of_le_of_ne hx (Ne.symm hx0)
    have hm : 0 < 0.5 * (x + y) := by linarith
    have hr2 : x / (0.5 * (x + y)) ≤ 2 := by
      rw [div_le_iff₀ hm]
      linarith
    have hrp : 0 < x / (0.5 * (x + y)) := div_pos hxp hm
    have hlog : Real.log (x / (0.5 * (x + y))) ≤ Real.log 2 := Real.log_le_log hrp hr2
    calc x * Real.log (x / (0.5 * (x + y))) ≤ x * Real.log 2 :=
          mul_le_mul_of_nonneg_left hlog hx
      _ = Real.log 2 * x + 0 * y := by ring

/-- Helper: mirror of `jsd_term_lower` for the second row. -/
theorem jsd_term_lower_right (x y : ℝ) (hx : 0 ≤ x) (hy : 0 ≤ y) :
    0.5 * y + -0.5 * x ≤ safe_xlogy y (y / (0.5 * (x + y))) := by
  have h := jsd_term_lower y x hy hx
  rwa [add_comm y x] at h

/-- Helper: mirror of `jsd_term_upper` for the second row. -/
theorem jsd_term_upper_right (x y : ℝ) (hx : 0 ≤ x) (hy : 0 ≤ y) :
    safe_xlogy y (y / (0.5 * (x + y))) ≤ Real.log 2 * y + 0 * x := by
  have h := jsd_term_upper y x hy hx
  rwa [add_comm y x] at h

/-- Helper: elementwise comparison of two `zipWith` sums. -/
theorem sum_zipWith_le_sum_zipWith (f g : ℝ → ℝ → ℝ) :
    ∀ (a b : List ℝ), (∀ x ∈ a, ∀ y ∈ b, f x y ≤ g x y) →
      (List.zipWith f a b).sum ≤ (List.zipWith g a b).sum
  | [], _, _ => by simp
  | x :: ta, [], _ => by simp
  | x :: ta, y :: tb, h => by
      simp only [List.zipWith, List.sum_cons]
      have h1 := h x (List.mem_cons_self x ta) y (List.mem_cons_self y tb)
      have h2 := sum_zipWith_le_sum_zipWith f g ta tb
        (fun u hu v hv => h u (List.mem_cons_of_mem x hu) v (List.mem_cons_of_mem y hv))
      linarith

/-- Helper: the sum of an elementwise linear combination of two equal-length
lists. -/
theorem sum_zipWith_linear (c1 c2 : ℝ) :
    ∀ (a b : List ℝ), a.length = b.length →
      (List.zipWith (fun x y => c1 * x + c2 * y) a b).sum = c1 * a.sum + c2 * b.sum
  | [], [], _ => by simp
  | [], y :: tb, h => by simp at h
  | x :: ta, [], h => by simp at h
  | x :: ta, y :: tb, h => by
      simp only [List.zipWith, List.sum_cons]
      rw [sum_zipWith_linear c1 c2 ta tb (by simpa using h)]
      ring

/-- Helper: dividing every entry divides the sum. -/
theorem sum_map_div (s : ℝ) (l : List ℝ) : (l.map (fun x => x / s)).sum = l.sum / s := by
  induction l with
  | nil => simp
  | cons a t ih => simp [ih, add_div]

/-- Helper: the non-log row measure over the normalized rows. -/
theorem probMeasure_eq_norm (pr qr : List ℝ) :
    probMeasure pr qr =
      0.5 * ((List.zipWith (fun a b => safe_xlogy a (a / (0.5 * (a + b))))
          (pr.map (fun x => x / pr.sum)) (qr.map (fun x => x / qr.sum))).sum +
        (List.zipWith (fun a b => safe_xlogy b (b / (0.5 * (a + b))))
          (pr.map (fun x => x / pr.sum)) (qr.map (fun x => x / qr.sum))).sum) := by
  unfold probMeasure
  simp only [List.zipWith_zipWith_right]
  simp only [List.zipWith3_same_left, List.zipWith3_same_mid]
  rw [List.zipWith_comm (fun b a => safe_xlogy b (b / (0.5 * (a + b))))
    (qr.map (fun x => x / qr.sum)) (pr.map (fun x => x / pr.sum))]

/-- Helper: for two nonnegative rows summing to one, each of the two halves
of the divergence sum lies in `[0, log 2]`. -/
theorem jsd_norm_sums_bounds (a b : List ℝ) (hlen : a.length = b.length)
    (ha0 : ∀ x ∈ a, 0 ≤ x) (hb0 : ∀ y ∈ b, 0 ≤ y) (has : a.sum = 1) (hbs : b.sum = 1) :
    (0 ≤ (List.zipWith (fun x y => safe_xlogy x (x / (0.5 * (x + y)))) a b).sum ∧
      (List.zipWith (fun x y => safe_xlogy x (x / (0.5 * (x + y)))) a b).sum ≤ Real.log 2) ∧
    (0 ≤ (List.zipWith (fun x y => safe_xlogy y (y / (0.5 * (x + y)))) a b).sum ∧
      (List.zipWith (fun x y => safe_xlogy y (y / (0.5 * (x + y)))) a b).sum ≤ Real.log 2) := by
  have hlow1 := sum_zipWith_le_sum_zipWith (fun x y => 0.5 * x + -0.5 * y)
    (fun x y => safe_xlogy x (x / (0.5 * (x + y)))) a b
    (fun x hx y hy => jsd_term_lower x y (ha0 x hx) (hb0 y hy))
  have hup1 := sum_zipWith_le_sum_zipWith (fun x y => safe_xlogy x (x / (0.5 * (x + y))))
    (fun x y => Real.log 2 * x + 0 * y) a b
    (fun x hx y hy => jsd_term_upper x y (ha0 x hx) (hb0 y hy))
  have hlow2 := sum_zipWith_le_sum_zipWith (fun x y => 0.5 * y + -0.5 * x)
    (fun x y => safe_xlogy y (y / (0.5 * (x + y)))) a b
    (fun x hx y hy => jsd_term_lower_right x y (ha0 x hx) (hb0 y hy))
  have hup2 := sum_zipWith_le_sum_zipWith (fun x y => safe_xlogy y (y / (0.5 * (x + y))))
    (fun x y => Real.log 2 * y + 0 * x) a b
    (fun x hx y hy => jsd_term_upper_right x y (ha0 x hx) (hb0 y hy))
  have e1 : (List.zipWith (fun x y => 0.5 * x + -0.5 * y) a b).sum = 0 := by
    rw [sum_zipWith_linear 0.5 (-0.5) a b hlen, has, hbs]; ring
  have e2 : (List.zipWith (fun x y => Real.log 2 * x + 0 * y) a b).sum = Real.log 2 := by
    rw [sum_zipWith_linear (Real.log 2) 0 a b hlen, has, hbs]; ring
  have e3 : (List.zipWith (fun x y => 0.5 * y + -0.5 * x) a b).sum = 0 := by
    have : (fun (x y : ℝ) => 0.5 * y + -0.5 * x) = fun x y => -0.5 * x + 0.5 * y := by
      funext x y; ring
    rw [this, sum_zipWith_linear (-0.5) 0.5 a b hlen, has, hbs]; ring
  have e4 : (List.zipWith (fun x y => Real.log 2 * y + 0 * x) a b).sum = Real.log 2 := by
    have : (fun (x y : ℝ) => Real.log 2 * y + 0 * x) = fun x y => 0 * x + Real.log 2 * y := by
      funext x y; ring
    rw [this, sum_zipWith_linear 0 (Real.log 2) a b hlen, has, hbs]; ring
  rw [e1] at hlow1
  rw [e2] at hup1
  rw [e3] at hlow2
  rw [e4] at hup2
  exact ⟨⟨hlow1, hup1⟩, ⟨hlow2, hup2⟩⟩

/-- Helper: the non-log row measure of nonnegative rows with positive sums
lies in `[0, log 2]`. -/
theorem probMeasure_bounds (pr qr : List ℝ) (hlen : pr.length = qr.length)
    (hp0 : ∀ x ∈ pr, 0 ≤ x) (hq0 : ∀ y ∈ qr, 0 ≤ y)
    (hps : 0 < pr.sum) (hqs : 0 < qr.sum) :
    0 ≤ probMeasure pr qr ∧ probMeasure pr qr ≤ Real.log 2 := by
  rw [probMeasure_eq_norm]
  have ha0 : ∀ x ∈ pr.map (fun x => x / pr.sum), 0 ≤ x := by
    intro x hx
    obtain ⟨u, hu, rfl⟩ := List.mem_map.mp hx
    exact div_nonneg (hp0 u hu) (le_of_lt hps)
  have hb0 : ∀ y ∈ qr.map (fun x => x / qr.sum), 0 ≤ y := by
    intro y hy
    obtain ⟨u, hu, rfl⟩ := List.mem_map.mp hy
    exact div_nonneg (hq0 u hu) (le_of_lt hqs)
  have has : (pr.map (fun x => x / pr.sum)).sum = 1 := by
    rw [sum_map_div, div_self (ne_of_gt hps)]
  have hbs : (qr.map (fun x => x / qr.sum)).sum = 1 := by
    rw [sum_map_div, div_self (ne_of_gt hqs)]
  obtain ⟨⟨l1, u1⟩, l2, u2⟩ := jsd_norm_sums_bounds
    (pr.map (fun x => x / pr.sum)) (qr.map (fun x => x / qr.sum))
    (by simp [hlen]) ha0 hb0 has hbs
  constructor <;> linarith

/-- Helper: a log-path summand is the non-log summand of the exponentials. -/
theorem logTerm_eq_safe (x y : ℝ) :
    Real.exp x * (x - Real.log (0.5 * (Real.exp x + Real.exp y))) =
      safe_xlogy (Real.exp x) (Real.exp x / (0.5 * (Real.exp x + Real.exp y))) := by
  unfold safe_xlogy
  rw [if_neg (Real.exp_ne_zero x)]
  have hm : (0.5 : ℝ) * (Real.exp x + Real.exp y) ≠ 0 := by
    have := Real.exp_pos x
    have := Real.exp_pos y
    positivity
  rw [Real.log_div (Real.exp_ne_zero x) hm, Real.log_exp]

/-- Helper: mirror of `logTerm_eq_safe` for the second row. -/
theorem logTerm_eq_safe_right (x y : ℝ) :
    Real.exp y * (y - Real.log (0.5 * (Real.exp x + Real.exp y))) =
      safe_xlogy (Real.exp y) (Real.exp y / (0.5 * (Real.exp x + Real.exp y))) := by
  rw [add_comm (Real.exp x)]
  exact logTerm_eq_safe y x

/-- Helper: the log-path row measure as the non-log combination of the
exponentiated rows. -/
theorem logMeasure_eq_norm (pr qr : List ℝ) :
    logMeasure pr qr =
      0.5 * ((List.zipWith (fun x y => safe_xlogy x (x / (0.5 * (x + y))))
          (pr.map Real.exp) (qr.map Real.exp)).sum +
        (List.zipWith (fun x y => safe_xlogy y (y / (0.5 * (x + y))))
          (pr.map Real.exp) (qr.map Real.exp)).sum) := by
  rw [logMeasure_eq]
  simp only [List.zipWith_map]
  congr 2
  · congr 1
    have hf : (fun (a b : ℝ) => Real.exp a * (a - Real.log (0.5 * (Real.exp a + Real.exp b)))) =
        fun a b => safe_xlogy (Real.exp a) (Real.exp a / (0.5 * (Real.exp a + Real.exp b))) :=
      funext fun a => funext fun b => logTerm_eq_safe a b
    rw [hf]
  · congr 1
    have hf : (fun (a b : ℝ) => Real.exp b * (b - Real.log (0.5 * (Real.exp a + Real.exp b)))) =
        fun a b => safe_xlogy (Real.exp b) (Real.exp b / (0.5 * (Real.exp a + Real.exp b))) :=
      funext fun a => funext fun b => logTerm_eq_safe_right a b
    rw [hf]

/-- Helper: the log-path row measure of rows whose exponentials sum to one
lies in `[0, log 2]`. -/
theorem logMeasure_bounds (pr qr : List ℝ) (hlen : pr.length = qr.length)
    (hps : (pr.map Real.exp).sum = 1) (hqs : (qr.map Real.exp).sum = 1) :
    0 ≤ logMeasure pr qr ∧ logMeasure pr qr ≤ Real.log 2 := by
  rw [logMeasure_eq_norm]
  have ha0 : ∀ x ∈ pr.map Real.exp, 0 ≤ x := by
    intro x hx
    obtain ⟨u, hu, rfl⟩ := List.mem_map.mp hx
    exact le_of_lt (Real.exp_pos u)
  have hb0 : ∀ y ∈ qr.map Real.exp, 0 ≤ y := by
    intro y hy
    obtain ⟨u, hu, rfl⟩ := List.mem_map.mp hy
    exact le_of_lt (Real.exp_pos u)
  obtain ⟨⟨l1, u1⟩, l2, u2⟩ := jsd_norm_sums_bounds (pr.map Real.exp) (qr.map Real.exp)
    (by simp [hlen]) ha0 hb0 hps hqs
  constructor <;> linarith

/-- Helper: every element of a `zipWith` comes from a pair of elements. -/
theorem exists_of_mem_zipWith {α β γ : Type} (f : α → β → γ) :
    ∀ (a : List α) (b : List β) (x : γ), x ∈ List.zipWith f a b →
      ∃ u ∈ a, ∃ v ∈ b, x = f u v
  | [], _, x, h => by simp at h
  | _ :: _, [], x, h => by simp at h
  | u :: ta, v :: tb, x, h => by
      simp only [List.zipWith, List.mem_cons] at h
      rcases h with h | h
      · exact ⟨u, List.mem_cons_self u ta, v, List.mem_cons_self v tb, h⟩
      · obtain ⟨u', hu', v', hv', hx⟩ := exists_of_mem_zipWith f ta tb x h
        exact ⟨u', List.mem_cons_of_mem u hu', v', List.mem_cons_of_mem v hv', hx⟩

/-- C8: for well-formed equal-height inputs whose rows are normalizable
(nonnegative with positive sums) in the non-log path, or log-probabilities of
normalized distributions in the log path, every per-sample divergence lies in
`[0, log 2]`, and hence so do the `\"none\"` and `\"mean\"` reductions. -/
theorem js_divergence_bounded (p q : Tensor) (d : ℕ) (log_prob : Bool)
    (hp : p.WF2 d) (hq : q.WF2 d) (hN : p.rows.length = q.rows.length)
    (hprow : if log_prob then ∀ r ∈ p.rows, (r.map Real.exp).sum = 1
             else ∀ r ∈ p.rows, (∀ x ∈ r, 0 ≤ x) ∧ 0 < r.sum)
    (hqrow : if log_prob then ∀ r ∈ q.rows, (r.map Real.exp).sum = 1
             else ∀ r ∈ q.rows, (∀ x ∈ r, 0 ≤ x) ∧ 0 < r.sum) :
    ∀ (m : List ℝ) (n : ℕ), _jsd_update p q log_prob = .ok (m, n) →
      (∀ x ∈ m, 0 ≤ x ∧ x ≤ Real.log 2) ∧
      (0 ≤ m.sum / (n : ℝ) ∧ m.sum / (n : ℝ) ≤ Real.log 2) ∧
      js_divergence p q log_prob (some "none") = .ok (.vec m) ∧
      js_divergence p q log_prob (some "mean") = .ok (.scalar (m.sum / (n : ℝ))) := by
  intro m n hok
  obtain ⟨hps, hpr⟩ := hp
  obtain ⟨hqs, hqr⟩ := hq
  have helem : ∀ x ∈ m, 0 ≤ x ∧ x ≤ Real.log 2 := by
    intro x hx
    have hm : m = if log_prob then List.zipWith logMeasure p.rows q.rows
        else List.zipWith probMeasure p.rows q.rows := by
      have hsh : p.shape = q.shape := by rw [hps, hqs, hN]
      simp only [_jsd_update, check_same_shape, hsh, if_pos rfl, Tensor.ndim, hps, hqs] at hok
      simp at hok
      exact hok.1.symm
    cases log_prob with
    | true =>
      rw [if_pos rfl] at hm
      rw [if_pos rfl] at hprow hqrow
      subst hm
      obtain ⟨u, hu, v, hv, rfl⟩ := exists_of_mem_zipWith logMeasure p.rows q.rows x hx
      exact logMeasure_bounds u v (by rw [hpr u hu, hqr v hv]) (hprow u hu) (hqrow v hv)
    | false =>
      rw [if_neg (by simp)] at hm
      rw [if_neg (by simp)] at hprow hqrow
      subst hm
      obtain ⟨u, hu, v, hv, rfl⟩ := exists_of_mem_zipWith probMeasure p.rows q.rows x hx
      exact probMeasure_bounds u v (by rw [hpr u hu, hqr v hv]) (hprow u hu).1 (hqrow v hv).1
        (hprow u hu).2 (hqrow v hv).2
  refine ⟨helem, ?_, ?_, ?_⟩
  · have hsum0 : 0 ≤ m.sum := List.sum_nonneg (fun x hx => (helem x hx).1)
    have hsumle : m.sum ≤ m.length • Real.log 2 :=
      List.sum_le_card_nsmul m (Real.log 2) (fun x hx => (helem x hx).2)
    rw [nsmul_eq_mul] at hsumle
    have hlen_n : m.length ≤ n := by
      have hsh : p.shape = q.shape := by rw [hps, hqs, hN]
      simp only [_jsd_update, check_same_shape, hsh, if_pos rfl, Tensor.ndim, hps, hqs] at hok
      simp at hok
      obtain ⟨hm, hn⟩ := hok
      rw [← hm, ← hn]
      cases log_prob <;> simp [List.length_zipWith, hN, hps]
    constructor
    · exact div_nonneg hsum0 (Nat.cast_nonneg n)
    · rcases Nat.eq_zero_or_pos n with hn0 | hnp
      · subst hn0
        simp
        exact Real.log_nonneg one_le_two
      · rw [div_le_iff₀ (by exact_mod_cast hnp)]
        calc m.sum ≤ (m.length : ℝ) * Real.log 2 := hsumle
          _ ≤ (n : ℝ) * Real.log 2 := by
              apply mul_le_mul_of_nonneg_right _ (Real.log_nonneg one_le_two)
              exact_mod_cast hlen_n
          _ = Real.log 2 * (n : ℝ) := by ring
  · simp [js_divergence, hok, _jsd_compute]
  · simp [js_divergence, hok, _jsd_compute, RTensor.sum]

/-- Witness for C8 at a concrete pair of one-row probability tensors. -/
theorem js_divergence_bounded_witness :
    (∀ x ∈ [probMeasure [(0.3 : ℝ), 0.7] [0.6, 0.4]], 0 ≤ x ∧ x ≤ Real.log 2) ∧
    (0 ≤ ([probMeasure [(0.3 : ℝ), 0.7] [0.6, 0.4]]).sum / ((1 : ℕ) : ℝ) ∧
      ([probMeasure [(0.3 : ℝ), 0.7] [0.6, 0.4]]).sum / ((1 : ℕ) : ℝ) ≤ Real.log 2) ∧
    js_divergence ⟨[1, 2], [[0.3, 0.7]]⟩ ⟨[1, 2], [[0.6, 0.4]]⟩ false (some "none")
      = .ok (.vec [probMeasure [(0.3 : ℝ), 0.7] [0.6, 0.4]]) ∧
    js_divergence ⟨[1, 2], [[0.3, 0.7]]⟩ ⟨[1, 2], [[0.6, 0.4]]⟩ false (some "mean")
      = .ok (.scalar (([probMeasure [(0.3 : ℝ), 0.7] [0.6, 0.4]]).sum / ((1 : ℕ) : ℝ))) :=
  js_divergence_bounded ⟨[1, 2], [[0.3, 0.7]]⟩ ⟨[1, 2], [[0.6, 0.4]]⟩ 2 false
    ⟨by simp, by simp⟩ ⟨by simp, by simp⟩ rfl
    (by norm_num)
    (by norm_num)
    [probMeasure [0.3, 0.7] [0.6, 0.4]] 1
    (by simp [_jsd_update, check_same_shape, Tensor.ndim])


/-- Checked logarithm for the definedness semantics: undefined (as floats
would give `-inf` or `NaN`) unless the argument is positive. -/
noncomputable def plog (x : ℝ) : Option ℝ :=
  if 0 < x then some (Real.log x) else Option.none

/-- Checked division for the definedness semantics: undefined when the
divisor is zero (floats would give `inf` or `NaN`). -/
noncomputable def pdiv (x y : ℝ) : Option ℝ :=
  if y = 0 then Option.none else some (x / y)

/-- Modelled from the spec: the checked `_safe_xlogy` returns 0 where
`x = 0` regardless of whether `y` is zero, undefined or non-finite there;
elsewhere it is `x * log y`, undefined when `y` is not defined and
positive. -/
noncomputable def safe_xlogy_chk (x : ℝ) (y : Option ℝ) : Option ℝ :=
  if x = 0 then some 0
  else match y with
    | Option.none => Option.none
    | some v => (plog v).map (fun l => x * l)

/-- Sequence a list of checked values: defined only when every entry is. -/
noncomputable def seqOpt : List (Option ℝ) → Option (List ℝ)
  | [] => some []
  | x :: t => x.bind (fun v => (seqOpt t).map (fun vs => v :: vs))

/-- The non-log row measure of `_jsd_update` re-run under the definedness
semantics: every division and logarithm is checked, and an undefined
intermediate anywhere (other than under the `safe_xlogy` guard) makes the
whole result undefined. -/
noncomputable def probMeasureChk (pr qr : List ℝ) : Option ℝ := do
  let pn ← seqOpt (pr.map (fun x => pdiv x pr.sum))
  let qn ← seqOpt (qr.map (fun x => pdiv x qr.sum))
  let m := List.zipWith (fun a b => 0.5 * (a + b)) pn qn
  let t1 ← seqOpt (List.zipWith (fun a c => safe_xlogy_chk a (pdiv a c)) pn m)
  let t2 ← seqOpt (List.zipWith (fun b c => safe_xlogy_chk b (pdiv b c)) qn m)
  pure (0.5 * (t1.sum + t2.sum))

/-- Helper: normalization by a nonzero sum is everywhere defined. -/
theorem seqOpt_map_pdiv (s : ℝ) (hs : s ≠ 0) (l : List ℝ) :
    seqOpt (l.map (fun x => pdiv x s)) = some (l.map (fun x => x / s)) := by
  induction l with
  | nil => simp [seqOpt]
  | cons a t ih =>
    simp only [List.map_cons, seqOpt, ih]
    simp [pdiv, hs]

/-- Helper: the first-row divergence terms are everywhere defined: each
zero entry is guarded, and each nonzero entry has a positive mixture. -/
theorem chk_terms_left (a b : List ℝ) (ha0 : ∀ x ∈ a, 0 ≤ x) (hb0 : ∀ y ∈ b, 0 ≤ y) :
    seqOpt (List.zipWith (fun x c => safe_xlogy_chk x (pdiv x c)) a
        (List.zipWith (fun x y => 0.5 * (x + y)) a b))
      = some (List.zipWith (fun x c => safe_xlogy x (x / c)) a
        (List.zipWith (fun x y => 0.5 * (x + y)) a b)) := by
  induction a generalizing b with
  | nil => simp [seqOpt]
  | cons x ta ih =>
    cases b with
    | nil => simp [seqOpt]
    | cons y tb =>
      have hx := ha0 x (List.mem_cons_self x ta)
      have hy := hb0 y (List.mem_cons_self y tb)
      have hhead : safe_xlogy_chk x (pdiv x (0.5 * (x + y)))
          = some (safe_xlogy x (x / (0.5 * (x + y)))) := by
        by_cases hx0 : x = 0
        · simp [safe_xlogy_chk, safe_xlogy, hx0]
        · have hxp : 0 < x := lt_of_le_of_ne hx (Ne.symm hx0)
          have hm : 0 < 0.5 * (x + y) := by linarith
          simp [safe_xlogy_chk, safe_xlogy, hx0, pdiv, ne_of_gt hm, plog,
            div_pos hxp hm]
      simp only [List.zipWith, seqOpt, hhead]
      rw [ih tb (fun u hu => ha0 u (List.mem_cons_of_mem x hu))
        (fun v hv => hb0 v (List.mem_cons_of_mem y hv))]
      rfl

/-- Helper: mirror of `chk_terms_left` for the second row. -/
theorem chk_terms_right (a b : List ℝ) (ha0 : ∀ x ∈ a, 0 ≤ x) (hb0 : ∀ y ∈ b, 0 ≤ y) :
    seqOpt (List.zipWith (fun w c => safe_xlogy_chk w (pdiv w c)) b
        (List.zipWith (fun x y => 0.5 * (x + y)) a b))
      = some (List.zipWith (fun w c => safe_xlogy w (w / c)) b
        (List.zipWith (fun x y => 0.5 * (x + y)) a b)) := by
  induction a generalizing b with
  | nil => cases b <;> simp [seqOpt]
  | cons x ta ih =>
    cases b with
    | nil => simp [seqOpt]
    | cons y tb =>
      have hx := ha0 x (List.mem_cons_self x ta)
      have hy := hb0 y (List.mem_cons_self y tb)
      have hhead : safe_xlogy_chk y (pdiv y (0.5 * (x + y)))
          = some (safe_xlogy y (y / (0.5 * (x + y)))) := by
        by_cases hy0 : y = 0
        · simp [safe_xlogy_chk, safe_xlogy, hy0]
        · have hyp : 0 < y := lt_of_le_of_ne hy (Ne.symm hy0)
          have hm : 0 < 0.5 * (x + y) := by linarith
          simp [safe_xlogy_chk, safe_xlogy, hy0, pdiv, ne_of_gt hm, plog,
            div_pos hyp hm]
      simp only [List.zipWith, seqOpt, hhead]
      rw [ih tb (fun u hu => ha0 u (List.mem_cons_of_mem x hu))
        (fun v hv => hb0 v (List.mem_cons_of_mem y hv))]
      rfl

/-- Helper: for nonnegative rows with positive sums the checked non-log row
measure is defined and agrees with the real-valued embedding. -/
theorem probMeasureChk_defined (pr qr : List ℝ)
    (hp0 : ∀ x ∈ pr, 0 ≤ x) (hq0 : ∀ y ∈ qr, 0 ≤ y)
    (hps : 0 < pr.sum) (hqs : 0 < qr.sum) :
    probMeasureChk pr qr = some (probMeasure pr qr) := by
  have ha0 : ∀ x ∈ pr.map (fun x => x / pr.sum), 0 ≤ x := by
    intro x hx
    obtain ⟨u, hu, rfl⟩ := List.mem_map.mp hx
    exact div_nonneg (hp0 u hu) (le_of_lt hps)
  have hb0 : ∀ y ∈ qr.map (fun x => x / qr.sum), 0 ≤ y := by
    intro y hy
    obtain ⟨u, hu, rfl⟩ := List.mem_map.mp hy
    exact div_nonneg (hq0 u hu) (le_of_lt hqs)
  unfold probMeasureChk
  rw [seqOpt_map_pdiv pr.sum (ne_of_gt hps) pr, seqOpt_map_pdiv qr.sum (ne_of_gt hqs) qr]
  simp only [Option.bind_eq_bind, Option.some_bind]
  rw [chk_terms_left (pr.map (fun x => x / pr.sum)) (qr.map (fun x => x / qr.sum)) ha0 hb0,
    chk_terms_right (pr.map (fun x => x / pr.sum)) (qr.map (fun x => x / qr.sum)) ha0 hb0]
  simp only [Option.some_bind]
  rw [probMeasure]
  rfl

/-- C9: on well-formed non-log inputs with nonnegative rows of positive sum,
`_jsd_update` raises no error, and every per-row measure re-computed under
the checked semantics (division by zero and logarithms of nonpositive
numbers are undefined unless guarded by `safe_xlogy`) is defined — hence
finite and non-NaN — and agrees with the real-valued result. -/
theorem jsd_nonlog_zero_guard (p q : Tensor) (d : ℕ)
    (hp : p.WF2 d) (hq : q.WF2 d) (hN : p.rows.length = q.rows.length)
    (hprow : ∀ r ∈ p.rows, (∀ x ∈ r, 0 ≤ x) ∧ 0 < r.sum)
    (hqrow : ∀ r ∈ q.rows, (∀ x ∈ r, 0 ≤ x) ∧ 0 < r.sum) :
    _jsd_update p q false = .ok (List.zipWith probMeasure p.rows q.rows, p.rows.length) ∧
    ∀ pr ∈ p.rows, ∀ qr ∈ q.rows, probMeasureChk pr qr = some (probMeasure pr qr) := by
  constructor
  · obtain ⟨hps, hpr⟩ := hp
    obtain ⟨hqs, hqr⟩ := hq
    have hsh : p.shape = q.shape := by rw [hps, hqs, hN]
    simp [_jsd_update, check_same_shape, hsh, Tensor.ndim, hps, hqs]
    exact hN.symm
  · intro pr hpr2 qr hqr2
    exact probMeasureChk_defined pr qr (hprow pr hpr2).1 (hqrow qr hqr2).1
      (hprow pr hpr2).2 (hqrow qr hqr2).2

/-- Witness for C9 at the spec's concrete input `p = [[0.3, 0.3, 0.4]]`,
`q = [[0.5, 0.5, 0]]`, whose second distribution has a zero entry. -/
theorem jsd_nonlog_zero_guard_witness :
    _jsd_update ⟨[1, 3], [[0.3, 0.3, 0.4]]⟩ ⟨[1, 3], [[0.5, 0.5, 0]]⟩ false =
      .ok (List.zipWith probMeasure [[(0.3 : ℝ), 0.3, 0.4]] [[(0.5 : ℝ), 0.5, 0]],
        ([[(0.3 : ℝ), 0.3, 0.4]] : List (List ℝ)).length) ∧
    ∀ pr ∈ [[(0.3 : ℝ), 0.3, 0.4]], ∀ qr ∈ [[(0.5 : ℝ), 0.5, 0]],
      probMeasureChk pr qr = some (probMeasure pr qr) :=
  jsd_nonlog_zero_guard ⟨[1, 3], [[0.3, 0.3, 0.4]]⟩ ⟨[1, 3], [[0.5, 0.5, 0]]⟩ 3
    ⟨by simp, by simp⟩ ⟨by simp, by simp⟩ rfl (by norm_num) (by norm_num)

/-- Closed form of the value `js_divergence` computes on the spec's literal
example `p = [[0.36, 0.48, 0.16]]`, `q = [[1/3, 1/3, 1/3]]` with default
arguments: the normalized rows give the log ratios below. -/
noncomputable def jsdLiteralValue : ℝ :=
  0.5 * ((0.36 * Real.log (27 / 26) + 0.48 * Real.log (72 / 61) - 0.16 * Real.log (37 / 24))
    + (1 / 3 * Real.log (50 / 37) - 1 / 3 * Real.log (26 / 25) - 1 / 3 * Real.log (61 / 50)))

/-- Helper: the row measure of the literal example in closed form. -/
theorem probMeasure_literal :
    probMeasure [9 / 25, 12 / 25, 4 / 25] [1 / 3, 1 / 3, 1 / 3] = jsdLiteralValue := by
  simp only [probMeasure, jsdLiteralValue]
  norm_num [safe_xlogy]
  rw [show ((24 : ℝ) / 37) = ((37 : ℝ) / 24)⁻¹ by norm_num, Real.log_inv,
    show ((25 : ℝ) / 26) = ((26 : ℝ) / 25)⁻¹ by norm_num, Real.log_inv,
    show ((50 : ℝ) / 61) = ((61 : ℝ) / 50)⁻¹ by norm_num, Real.log_inv]
  ring

/-- Helper: `js_divergence` on the literal example with mean reduction
returns the closed-form value. -/
theorem jsd_literal_eval :
    js_divergence ⟨[1, 3], [[0.36, 0.48, 0.16]]⟩ ⟨[1, 3], [[1/3, 1/3, 1/3]]⟩ false (some "mean")
      = .ok (.scalar jsdLiteralValue) := by
  simp only [js_divergence, _jsd_update, check_same_shape, Tensor.ndim, _jsd_compute,
    RTensor.sum]
  norm_num [probMeasure_literal]

/-- Helper: `js_divergence` on the literal example with sum reduction
returns the same closed-form value (single-sample batch). -/
theorem jsd_literal_eval_sum :
    js_divergence ⟨[1, 3], [[0.36, 0.48, 0.16]]⟩ ⟨[1, 3], [[1/3, 1/3, 1/3]]⟩ false (some "sum")
      = .ok (.scalar jsdLiteralValue) := by
  simp only [js_divergence, _jsd_update, check_same_shape, Tensor.ndim, _jsd_compute,
    RTensor.sum]
  norm_num [probMeasure_literal]

/-- Helper: two-sided Taylor bounds for `log (1-x)⁻¹` from the partial sums
of the logarithm series. -/
theorem log_one_sub_inv_bounds (x : ℝ) (h0 : 0 ≤ x) (h1 : x < 1) (n : ℕ) :
    (∑ i ∈ Finset.range n, x ^ (i + 1) / (i + 1)) - x ^ (n + 1) / (1 - x)
        ≤ Real.log (1 - x)⁻¹ ∧
    Real.log (1 - x)⁻¹
        ≤ (∑ i ∈ Finset.range n, x ^ (i + 1) / (i + 1)) + x ^ (n + 1) / (1 - x) := by
  have habs : |x| < 1 := by rw [abs_of_nonneg h0]; exact h1
  have h := Real.abs_log_sub_add_sum_range_le habs n
  rw [abs_le, abs_of_nonneg h0] at h
  rw [Real.log_inv]
  constructor <;> linarith [h.1, h.2]

/-- Helper: numeric bounds for `log (27/26)`. -/
theorem log_2726_bounds :
    (0.0377378 : ℝ) ≤ Real.log (27 / 26) ∧ Real.log (27 / 26) ≤ 0.0377418 := by
  have h := log_one_sub_inv_bounds (1 / 27) (by norm_num) (by norm_num) 3
  rw [show ((1 : ℝ) - 1 / 27)⁻¹ = 27 / 26 by norm_num] at h
  simp only [Finset.sum_range_succ, Finset.sum_range_zero] at h
  norm_num at h
  exact ⟨by linarith [h.1], by linarith [h.2]⟩

/-- Helper: numeric bounds for `log (72/61)`. -/
theorem log_7261_bounds :
    (0.1656749 : ℝ) ≤ Real.log (72 / 61) ∧ Real.log (72 / 61) ≤ 0.1658715 := by
  have h := log_one_sub_inv_bounds (11 / 72) (by norm_num) (by norm_num) 4
  rw [show ((1 : ℝ) - 11 / 72)⁻¹ = 72 / 61 by norm_num] at h
  simp only [Finset.sum_range_succ, Finset.sum_range_zero] at h
  norm_num at h
  exact ⟨by linarith [h.1], by linarith [h.2]⟩

/-- Helper: numeric bounds for `log (37/24)`. -/
theorem log_3724_bounds :
    (0.432725 : ℝ) ≤ Real.log (37 / 24) ∧ Real.log (37 / 24) ≤ 0.4329766 := by
  have h := log_one_sub_inv_bounds (13 / 37) (by norm_num) (by norm_num) 8
  rw [show ((1 : ℝ) - 13 / 37)⁻¹ = 37 / 24 by norm_num] at h
  simp only [Finset.sum_range_succ, Finset.sum_range_zero] at h
  norm_num at h
  exact ⟨by linarith [h.1], by linarith [h.2]⟩

/-- Helper: numeric bounds for `log (26/25)`. -/
theorem log_2625_bounds :
    (0.0392178 : ℝ) ≤ Real.log (26 / 25) ∧ Real.log (26 / 25) ≤ 0.0392225 := by
  have h := log_one_sub_inv_bounds (1 / 26) (by norm_num) (by norm_num) 3
  rw [show ((1 : ℝ) - 1 / 26)⁻¹ = 26 / 25 by norm_num] at h
  simp only [Finset.sum_range_succ, Finset.sum_range_zero] at h
  norm_num at h
  exact ⟨by linarith [h.1], by linarith [h.2]⟩

/-- Helper: numeric bounds for `log (61/50)`. -/
theorem log_6150_bounds :
    (0.1988021 : ℝ) ≤ Real.log (61 / 50) ∧ Real.log (61 / 50) ≤ 0.1988861 := by
  have h := log_one_sub_inv_bounds (11 / 61) (by norm_num) (by norm_num) 5
  rw [show ((1 : ℝ) - 11 / 61)⁻¹ = 61 / 50 by norm_num] at h
  simp only [Finset.sum_range_succ, Finset.sum_range_zero] at h
  norm_num at h
  exact ⟨by linarith [h.1], by linarith [h.2]⟩

/-- Helper: numeric bounds for `log (50/37)`. -/
theorem log_5037_bounds :
    (0.3010734 : ℝ) ≤ Real.log (50 / 37) ∧ Real.log (50 / 37) ≤ 0.30113 := by
  have h := log_one_sub_inv_bounds (13 / 50) (by norm_num) (by norm_num) 7
  rw [show ((1 : ℝ) - 13 / 50)⁻¹ = 50 / 37 by norm_num] at h
  simp only [Finset.sum_range_succ, Finset.sum_range_zero] at h
  norm_num at h
  exact ⟨by linarith [h.1], by linarith [h.2]⟩

/-- Helper: the literal example's value lies strictly between 0.0215 and
0.023 (its true value is about 0.02246). -/
theorem jsdLiteralValue_bounds :
    (0.0215 : ℝ) < jsdLiteralValue ∧ jsdLiteralValue < 0.023 := by
  obtain ⟨a1, b1⟩ := log_2726_bounds
  obtain ⟨a2, b2⟩ := log_7261_bounds
  obtain ⟨a3, b3⟩ := log_3724_bounds
  obtain ⟨a4, b4⟩ := log_2625_bounds
  obtain ⟨a5, b5⟩ := log_6150_bounds
  obtain ⟨a6, b6⟩ := log_5037_bounds
  unfold jsdLiteralValue
  constructor <;> nlinarith


/-- C2, counterexample: on the spec's literal example the code returns a
value more than 0.001 away from the claimed 0.0197 (it is about 0.0225), so
the claim as stated is false. -/
theorem js_divergence_literal_not_0197 :
    js_divergence ⟨[1, 3], [[0.36, 0.48, 0.16]]⟩ ⟨[1, 3], [[1/3, 1/3, 1/3]]⟩ false (some "mean")
      = .ok (.scalar jsdLiteralValue) ∧ 0.001 < |jsdLiteralValue - 0.0197| := by
  refine ⟨jsd_literal_eval, ?_⟩
  obtain ⟨h1, h2⟩ := jsdLiteralValue_bounds
  rw [abs_of_pos (by linarith)]
  linarith

/-- C2, amended: on the literal example with default arguments the result is
approximately 0.0225 (within 0.001) in natural-log units, and the mean
result equals the sum result for this single-sample batch. -/
theorem js_divergence_literal_value :
    js_divergence ⟨[1, 3], [[0.36, 0.48, 0.16]]⟩ ⟨[1, 3], [[1/3, 1/3, 1/3]]⟩ false (some "mean")
      = .ok (.scalar jsdLiteralValue) ∧
    |jsdLiteralValue - 0.0225| < 0.001 ∧
    js_divergence ⟨[1, 3], [[0.36, 0.48, 0.16]]⟩ ⟨[1, 3], [[1/3, 1/3, 1/3]]⟩ false (some "mean")
      = js_divergence ⟨[1, 3], [[0.36, 0.48, 0.16]]⟩ ⟨[1, 3], [[1/3, 1/3, 1/3]]⟩ false (some "sum") := by
  refine ⟨jsd_literal_eval, ?_, ?_⟩
  · obtain ⟨h1, h2⟩ := jsdLiteralValue_bounds
    rw [abs_lt]
    constructor <;> linarith
  · rw [jsd_literal_eval, jsd_literal_eval_sum]
